import Mathlib

/-!
# Verification of the Aetherum loan engine

Shallow embedding of the loan-pricing and amortization engine of
`aetherum_main_loan_agent_v2.1` (files `src/utils/amortization.py`,
`src/services/loan_engine.py`, `src/domain/risk_tiers.py`,
`src/api/routes.py`).

Modelling conventions:
* Python floats are modelled as exact rationals (`ℚ`); the engine's
  arithmetic is plain field arithmetic, and every comparison the claims
  touch is far from any binary-float boundary.
* `Decimal(str(x)).quantize(Decimal("0.01"), rounding=ROUND_HALF_UP)`
  (the `_q2` / `fmt` helpers) is modelled as exact half-up rounding on
  rationals: ties round away from zero, matching `decimal.ROUND_HALF_UP`.
* Python `dict`s are modelled as insertion-ordered association lists;
  `dict.get` returns the first binding or a Python `None`.
* Raised exceptions are modelled with `Except` / `Option`: `BadRequest`
  and `ValueError` become constructors of an error type, and an
  `IndexError` inside `sum_schedules` becomes `Option.none`.
-/

/-- Half-up rounding at scale `f` (`f = 100` for cents, `10000` for rates):
model of `float(Decimal(str(x)).quantize(..., rounding=ROUND_HALF_UP))`.
Ties round away from zero, as Python's `ROUND_HALF_UP` does. -/
def rnd (f : ℚ) (x : ℚ) : ℚ :=
  (if 0 ≤ x then ((⌊x * f + 1/2⌋ : ℤ) : ℚ) else -((⌊-x * f + 1/2⌋ : ℤ) : ℚ)) / f

/-- `_q2` from `src/utils/amortization.py`: round to cents, half-up.
Also the default (`"0.01"`) case of `fmt` in `src/services/loan_engine.py`. -/
def q2 (x : ℚ) : ℚ := rnd 100 x

/-- The `"0.0001"` case of `fmt` in `src/services/loan_engine.py`:
round to 4 decimal places, half-up. -/
def q4 (x : ℚ) : ℚ := rnd 10000 x

/-- A rational that is a whole number of cents (an exact 2-decimal value). -/
def Cents (x : ℚ) : Prop := ∃ k : ℤ, x = (k : ℚ) / 100

theorem cents_zero : Cents 0 := ⟨0, by norm_num⟩

theorem Cents.add {x y : ℚ} (hx : Cents x) (hy : Cents y) : Cents (x + y) := by
  obtain ⟨k, rfl⟩ := hx
  obtain ⟨l, rfl⟩ := hy
  exact ⟨k + l, by push_cast; ring⟩

theorem Cents.sub {x y : ℚ} (hx : Cents x) (hy : Cents y) : Cents (x - y) := by
  obtain ⟨k, rfl⟩ := hx
  obtain ⟨l, rfl⟩ := hy
  exact ⟨k - l, by push_cast; ring⟩

theorem cents_q2 (x : ℚ) : Cents (q2 x) := by
  unfold q2 rnd
  split
  · exact ⟨⌊x * 100 + 1/2⌋, rfl⟩
  · exact ⟨-⌊-x * 100 + 1/2⌋, by push_cast; ring⟩

theorem Cents.q2_eq {x : ℚ} (hx : Cents x) : q2 x = x := by
  obtain ⟨k, rfl⟩ := hx
  unfold q2 rnd
  have hk : (k : ℚ) / 100 * 100 = (k : ℚ) := by field_simp
  rw [hk]
  have hfloor : ⌊(k : ℚ) + 1/2⌋ = k := by
    rw [add_comm, Int.floor_add_int]
    norm_num
  by_cases h : (0 : ℚ) ≤ (k : ℚ) / 100
  · rw [if_pos h, hfloor]
  · rw [if_neg h]
    have hneg : -((k : ℚ) / 100) * 100 = ((-k : ℤ) : ℚ) := by push_cast; ring
    rw [hneg]
    have : ⌊((-k : ℤ) : ℚ) + 1/2⌋ = -k := by
      rw [add_comm, Int.floor_add_int]
      norm_num
    rw [this]
    push_cast
    ring

theorem q2_idem (x : ℚ) : q2 (q2 x) = q2 x := (cents_q2 x).q2_eq

theorem cents_list_sum {l : List ℚ} (h : ∀ x ∈ l, Cents x) : Cents l.sum := by
  induction l with
  | nil => exact cents_zero
  | cons a t ih =>
      rw [List.sum_cons]
      exact (h a (List.mem_cons_self a t)).add
        (ih fun x hx => h x (List.mem_cons_of_mem a hx))

/-! ## Amortization engine (`src/utils/amortization.py`) -/

/-- One row of an amortization schedule (`AmortizationRow`). -/
structure Row where
  month : ℕ
  opening_balance : ℚ
  payment : ℚ
  interest : ℚ
  principal : ℚ
  ending_balance : ℚ
  deriving Repr, DecidableEq

/-- The month loop of `amortization_schedule`: `bal` is the running balance,
`m` the 1-indexed month, the last argument the number of months still to
emit (the last month of the source's `if m == n` test is the call with the
counter at 1). -/
def amortLoop (rm pay : ℚ) : ℚ → ℕ → ℕ → List Row
  | _, _, 0 => []
  | bal, m, Nat.succ k =>
      let opening := bal
      let interest := q2 (opening * rm)
      let principal := if k = 0 then q2 opening else q2 (pay - interest)
      let payThis := if k = 0 then q2 (principal + interest) else pay
      let bal' := q2 (opening - principal)
      { month := m, opening_balance := q2 opening, payment := q2 payThis,
        interest := q2 interest, principal := q2 principal,
        ending_balance := q2 bal' } :: amortLoop rm pay bal' (m + 1) k

/-- Result of `amortization_schedule`: the cents-rounded level payment and
the schedule rows. -/
structure AmortResult where
  payment : ℚ
  schedule : List Row
  deriving Repr, DecidableEq

/-- `amortization_schedule(principal_usd, annual_rate_frac, months)` from
`src/utils/amortization.py`. -/
def amortization_schedule (principal_usd annual_rate_frac : ℚ) (months : ℤ) :
    AmortResult :=
  let P := principal_usd
  let n := months
  let rm := annual_rate_frac / 12
  if n ≤ 0 ∨ P ≤ 0 then { payment := 0, schedule := [] }
  else
    let payment0 := if rm = 0 then P / (n : ℚ) else P * rm / (1 - (1 + rm) ^ (-n))
    let payment := q2 payment0
    { payment := payment, schedule := amortLoop rm payment P 1 n.toNat }

theorem amortLoop_one (rm pay bal : ℚ) (m : ℕ) :
    amortLoop rm pay bal m 1 =
      [{ month := m, opening_balance := q2 bal,
         payment := q2 (q2 (q2 bal + q2 (bal * rm))),
         interest := q2 (q2 (bal * rm)), principal := q2 (q2 bal),
         ending_balance := q2 (q2 (bal - q2 bal)) }] := rfl

theorem amortLoop_cons (rm pay bal : ℚ) (m k : ℕ) :
    amortLoop rm pay bal m (k + 2) =
      { month := m, opening_balance := q2 bal, payment := q2 pay,
        interest := q2 (q2 (bal * rm)),
        principal := q2 (q2 (pay - q2 (bal * rm))),
        ending_balance := q2 (q2 (bal - q2 (pay - q2 (bal * rm)))) } ::
        amortLoop rm pay (q2 (bal - q2 (pay - q2 (bal * rm)))) (m + 1) (k + 1) := rfl

theorem amortLoop_length (rm pay : ℚ) :
    ∀ (k : ℕ) (bal : ℚ) (m : ℕ), (amortLoop rm pay bal m k).length = k := by
  intro k
  induction k with
  | zero => intro bal m; rfl
  | succ k ih => intro bal m; simp only [amortLoop, List.length_cons, ih]

theorem amortLoop_ne_nil (rm pay bal : ℚ) (m k : ℕ) :
    amortLoop rm pay bal m (k + 1) ≠ [] := by
  apply List.length_pos.mp
  rw [amortLoop_length]
  exact Nat.succ_pos k

theorem amortLoop_cents (rm pay : ℚ) :
    ∀ (k : ℕ) (bal : ℚ) (m : ℕ), ∀ r ∈ amortLoop rm pay bal m k,
      Cents r.opening_balance ∧ Cents r.payment ∧ Cents r.interest ∧
      Cents r.principal ∧ Cents r.ending_balance := by
  intro k
  induction k with
  | zero => intro bal m r hr; simp [amortLoop] at hr
  | succ k ih =>
      intro bal m r hr
      simp only [amortLoop, List.mem_cons] at hr
      rcases hr with rfl | hr
      · exact ⟨cents_q2 _, cents_q2 _, cents_q2 _, cents_q2 _, cents_q2 _⟩
      · exact ih _ _ r hr

theorem amortLoop_pay_eq (rm pay : ℚ) (hpay : Cents pay) :
    ∀ (k : ℕ) (bal : ℚ) (m : ℕ), ∀ r ∈ amortLoop rm pay bal m k,
      r.payment = r.interest + r.principal := by
  intro k
  induction k with
  | zero => intro bal m r hr; simp [amortLoop] at hr
  | succ k ih =>
      intro bal m r hr
      cases k with
      | zero =>
          rw [amortLoop_one] at hr
          simp only [List.mem_singleton] at hr
          subst hr
          simp only
          rw [q2_idem, q2_idem, q2_idem,
            ((cents_q2 bal).add (cents_q2 (bal * rm))).q2_eq]
          ring
      | succ k' =>
          rw [amortLoop_cons] at hr
          rcases List.mem_cons.mp hr with rfl | hr
          · simp only
            rw [q2_idem, q2_idem, hpay.q2_eq,
              (hpay.sub (cents_q2 (bal * rm))).q2_eq]
            ring
          · exact ih _ _ r hr

theorem amortLoop_head_opening (rm pay bal : ℚ) (m k : ℕ) :
    ∃ r t, amortLoop rm pay bal m (k + 1) = r :: t ∧
      r.opening_balance = q2 bal := by
  cases k with
  | zero => exact ⟨_, _, amortLoop_one rm pay bal m, rfl⟩
  | succ k' => exact ⟨_, _, amortLoop_cons rm pay bal m k', rfl⟩

theorem amortLoop_chain (rm pay : ℚ) :
    ∀ (k : ℕ) (bal : ℚ) (m : ℕ),
      List.Chain' (fun a b => a.ending_balance = b.opening_balance)
        (amortLoop rm pay bal m k) := by
  intro k
  induction k with
  | zero => intro bal m; simp [amortLoop]
  | succ k ih =>
      intro bal m
      cases k with
      | zero => rw [amortLoop_one]; exact List.chain'_singleton _
      | succ k' =>
          rw [amortLoop_cons]
          rw [List.chain'_cons']
          refine ⟨?_, ih _ _⟩
          intro b hb
          obtain ⟨r, t, hrt, hop⟩ :=
            amortLoop_head_opening rm pay
              (q2 (bal - q2 (pay - q2 (bal * rm)))) (m + 1) k'
          rw [hrt] at hb
          simp only [List.head?_cons, Option.mem_def, Option.some.injEq] at hb
          subst hb
          rw [hop, q2_idem]

theorem getLast?_cons_of_ne_nil {α : Type} (a : α) {l : List α} (h : l ≠ []) :
    (a :: l).getLast? = l.getLast? := by
  cases l with
  | nil => exact absurd rfl h
  | cons b t => exact List.getLast?_cons_cons

theorem amortLoop_last (rm pay : ℚ) :
    ∀ (k : ℕ) (bal : ℚ) (m : ℕ), Cents bal →
      ∃ last, (amortLoop rm pay bal m (k + 1)).getLast? = some last ∧
        last.ending_balance = 0 ∧ last.principal = last.opening_balance ∧
        last.payment = last.principal + last.interest := by
  intro k
  induction k with
  | zero =>
      intro bal m hbal
      rw [amortLoop_one]
      refine ⟨_, List.getLast?_singleton _, ?_, ?_, ?_⟩
      · simp only
        rw [q2_idem, hbal.q2_eq, sub_self, cents_zero.q2_eq]
      · simp only
        rw [q2_idem]
      · simp only
        rw [q2_idem, q2_idem, q2_idem,
          ((cents_q2 bal).add (cents_q2 (bal * rm))).q2_eq]
  | succ k ih =>
      intro bal m hbal
      obtain ⟨last, hlast, h0, hpr, hpay⟩ :=
        ih (q2 (bal - q2 (pay - q2 (bal * rm)))) (m + 1) (cents_q2 _)
      refine ⟨last, ?_, h0, hpr, hpay⟩
      rw [amortLoop_cons,
        getLast?_cons_of_ne_nil _ (amortLoop_ne_nil rm pay _ (m + 1) k), hlast]


/-! ### Schedule-level consequences -/

theorem amortization_schedule_eq (P r : ℚ) (n : ℤ) (hn : 0 < n) (hP : 0 < P) :
    amortization_schedule P r n =
      { payment := q2 (if r / 12 = 0 then P / (n : ℚ)
          else P * (r / 12) / (1 - (1 + r / 12) ^ (-n))),
        schedule := amortLoop (r / 12)
          (q2 (if r / 12 = 0 then P / (n : ℚ)
            else P * (r / 12) / (1 - (1 + r / 12) ^ (-n)))) P 1 n.toNat } := by
  unfold amortization_schedule
  rw [if_neg]
  push_neg
  exact ⟨hn, hP⟩

theorem amortization_schedule_length (P r : ℚ) (n : ℤ) (hn : 0 < n) (hP : 0 < P) :
    (amortization_schedule P r n).schedule.length = n.toNat := by
  rw [amortization_schedule_eq P r n hn hP]
  exact amortLoop_length _ _ _ _ _

theorem amortization_schedule_cents (P r : ℚ) (n : ℤ) :
    ∀ row ∈ (amortization_schedule P r n).schedule,
      Cents row.opening_balance ∧ Cents row.payment ∧ Cents row.interest ∧
      Cents row.principal ∧ Cents row.ending_balance := by
  unfold amortization_schedule
  dsimp only
  split
  · intro row hr; simp at hr
  · exact amortLoop_cents _ _ _ _ _

theorem amortization_schedule_pay_exact (P r : ℚ) (n : ℤ) :
    ∀ row ∈ (amortization_schedule P r n).schedule,
      row.payment = row.interest + row.principal := by
  unfold amortization_schedule
  dsimp only
  split
  · intro row hr; simp at hr
  · exact amortLoop_pay_eq _ _ (cents_q2 _) _ _ _

theorem amortization_schedule_chain (P r : ℚ) (n : ℤ) :
    List.Chain' (fun a b => a.ending_balance = b.opening_balance)
      (amortization_schedule P r n).schedule := by
  unfold amortization_schedule
  dsimp only
  split
  · simp
  · exact amortLoop_chain _ _ _ _ _

theorem amortization_schedule_first_opening (P r : ℚ) (n : ℤ)
    (hn : 0 < n) (hP : 0 < P) (hc : Cents P) :
    ((amortization_schedule P r n).schedule.head?).map Row.opening_balance =
      some P := by
  rw [amortization_schedule_eq P r n hn hP]
  obtain ⟨k, hk⟩ : ∃ k, n.toNat = k + 1 := ⟨n.toNat - 1, by omega⟩
  rw [hk]
  obtain ⟨row, t, hrt, hop⟩ := amortLoop_head_opening (r / 12)
    (q2 (if r / 12 = 0 then P / (n : ℚ)
      else P * (r / 12) / (1 - (1 + r / 12) ^ (-n)))) P 1 k
  rw [hrt]
  simp only [List.head?_cons, Option.map_some']
  rw [hop, hc.q2_eq]

/-- **C2** (amended: principal a whole number of cents). For every call to
`amortization_schedule` with `months > 0` and a positive principal that is a
whole number of cents, the last row's `ending_balance` is exactly `0.00`, the
last row's principal component equals its opening balance, and that row's
payment equals principal + interest. -/
theorem amortization_last_row_exact_zero (P r : ℚ) (n : ℤ)
    (hn : 0 < n) (hP : 0 < P) (hc : Cents P) :
    ∃ last, (amortization_schedule P r n).schedule.getLast? = some last ∧
      last.ending_balance = 0 ∧ last.principal = last.opening_balance ∧
      last.payment = last.principal + last.interest := by
  rw [amortization_schedule_eq P r n hn hP]
  obtain ⟨k, hk⟩ : ∃ k, n.toNat = k + 1 := ⟨n.toNat - 1, by omega⟩
  dsimp only
  rw [hk]
  exact amortLoop_last _ _ k P 1 hc

/-- **C2** counterexample to the claim as stated: for the sub-cent principal
`100.005` with `months = 1` (and rate 0), the final `ending_balance` is
`-0.01`, not `0.00`, although `months > 0` and `principal > 0`. -/
theorem amortization_last_row_zero_cex :
    (0 : ℚ) < 20001/200 ∧ (0 : ℤ) < 1 ∧
    ((amortization_schedule (20001/200) 0 1).schedule.getLast?).map
      Row.ending_balance = some (-(1/100)) ∧ (-(1/100) : ℚ) ≠ 0 := by
  refine ⟨by norm_num, by norm_num, ?_, by norm_num⟩
  norm_num [amortization_schedule, amortLoop_one, q2, rnd]

/-- Witness for `amortization_last_row_exact_zero` at `P = 100`,
`rate = 0.12`, `months = 2`. -/
theorem amortization_last_row_exact_zero_witness :
    (0 : ℤ) < 2 ∧ (0 : ℚ) < 100 ∧ Cents (100 : ℚ) ∧
    (∃ last, (amortization_schedule 100 (12/100) 2).schedule.getLast? =
        some last ∧ last.ending_balance = 0 ∧
        last.principal = last.opening_balance ∧
        last.payment = last.principal + last.interest) :=
  ⟨by norm_num, by norm_num, ⟨10000, by norm_num⟩,
    amortization_last_row_exact_zero 100 (12/100) 2 (by norm_num) (by norm_num)
      ⟨10000, by norm_num⟩⟩


/-! ## Pointwise summation (`sum_schedules`) -/

/-- Inner loop of `sum_schedules`: fetch row `i` of every asset's schedule,
in insertion order. A missing index is Python's `IndexError`, modelled as
`none`. -/
def getAll : List (String × List Row) → ℕ → Option (List Row)
  | [], _ => some []
  | (_, sch) :: rest, i => do
      let r ← sch.get? i
      let rs ← getAll rest i
      pure (r :: rs)

/-- Outer loop of `sum_schedules` over row indices `i, i+1, ...` with `k`
indices left; `ref` is the first asset's schedule, whose `month` field is
copied. -/
def sumFrom (per : List (String × List Row)) (ref : List Row) :
    ℕ → ℕ → Option (List Row)
  | _, 0 => some []
  | i, Nat.succ k => do
      let rows ← getAll per i
      let month := match ref.get? i with | some r => r.month | none => 0
      let rest ← sumFrom per ref (i + 1) k
      pure ({ month := month,
              opening_balance := q2 ((rows.map Row.opening_balance).sum),
              payment := q2 ((rows.map Row.payment).sum),
              interest := q2 ((rows.map Row.interest).sum),
              principal := q2 ((rows.map Row.principal).sum),
              ending_balance := q2 ((rows.map Row.ending_balance).sum) } :: rest)

/-- `sum_schedules(per_asset)` from `src/utils/amortization.py`: pointwise
sum of the per-asset schedules, the number of rows taken from the first
asset's schedule; `none` models the `IndexError` raised when some later
schedule is shorter than the first. -/
def sum_schedules (per : List (String × List Row)) : Option (List Row) :=
  match per with
  | [] => some []
  | (_, ref) :: _ => sumFrom per ref 0 ref.length

/-! ### Summation lemmas -/

theorem chain'_rel_of_get {α : Type} {R : α → α → Prop} {l : List α}
    (h : List.Chain' R l) {i : ℕ} {a b : α}
    (ha : l.get? i = some a) (hb : l.get? (i + 1) = some b) : R a b := by
  obtain ⟨hib, hgb⟩ := List.get?_eq_some.mp hb
  obtain ⟨hia, hga⟩ := List.get?_eq_some.mp ha
  have hlt : i < l.length - 1 := by omega
  have := List.chain'_iff_get.mp h i hlt
  rw [hga, hgb] at this
  exact this

theorem sum_map_eq_add_of_mem {α : Type} {rows : List α} {f g h : α → ℚ}
    (hfg : ∀ r ∈ rows, f r = g r + h r) :
    (rows.map f).sum = (rows.map g).sum + (rows.map h).sum := by
  induction rows with
  | nil => simp
  | cons a t ih =>
      simp only [List.map_cons, List.sum_cons]
      rw [hfg a (List.mem_cons_self a t),
        ih fun r hr => hfg r (List.mem_cons_of_mem a hr)]
      ring

theorem cents_map_sum {α : Type} {rows : List α} {f : α → ℚ}
    (h : ∀ r ∈ rows, Cents (f r)) : Cents ((rows.map f).sum) := by
  apply cents_list_sum
  intro x hx
  obtain ⟨r, hr, rfl⟩ := List.mem_map.mp hx
  exact h r hr

theorem getAll_some {per : List (String × List Row)} {i : ℕ}
    (h : ∀ p ∈ per, i < p.2.length) : ∃ rows, getAll per i = some rows := by
  induction per with
  | nil => exact ⟨[], rfl⟩
  | cons p rest ih =>
      obtain ⟨rows, hrows⟩ := ih fun q hq => h q (List.mem_cons_of_mem p hq)
      have hr : p.2.get? i = some (p.2.get ⟨i, h p (List.mem_cons_self p rest)⟩) :=
        List.get?_eq_get (h p (List.mem_cons_self p rest))
      refine ⟨p.2.get ⟨i, h p (List.mem_cons_self p rest)⟩ :: rows, ?_⟩
      obtain ⟨s, sch⟩ := p
      simp only [getAll, Option.bind_eq_bind]
      rw [show sch.get? i = some (sch.get ⟨i, _⟩) from hr, hrows]
      rfl

theorem getAll_mem {per : List (String × List Row)} {i : ℕ} {rows : List Row}
    (h : getAll per i = some rows) :
    ∀ r ∈ rows, ∃ p, p ∈ per ∧ p.2.get? i = some r := by
  induction per generalizing rows with
  | nil =>
      intro r hr
      simp only [getAll, Option.some.injEq] at h
      subst h
      simp at hr
  | cons p rest ih =>
      intro r hr
      obtain ⟨s, sch⟩ := p
      simp only [getAll, Option.bind_eq_bind] at h
      cases hsch : sch.get? i with
      | none => rw [hsch] at h; simp at h
      | some r0 =>
          rw [hsch] at h
          cases hrest : getAll rest i with
          | none => rw [hrest] at h; simp at h
          | some rs =>
              rw [hrest] at h
              simp only [Option.some_bind, Option.pure_def, Option.some.injEq] at h
              subst h
              rcases List.mem_cons.mp hr with rfl | hr
              · exact ⟨(s, sch), List.mem_cons_self _ _, hsch⟩
              · obtain ⟨q, hq, hqr⟩ := ih hrest r hr
                exact ⟨q, List.mem_cons_of_mem _ hq, hqr⟩

theorem getAll_sum_rel {per : List (String × List Row)} {i : ℕ}
    {rows rows' : List Row}
    (h : getAll per i = some rows) (h' : getAll per (i + 1) = some rows')
    (hch : ∀ p ∈ per,
      List.Chain' (fun a b => a.ending_balance = b.opening_balance) p.2) :
    (rows.map Row.ending_balance).sum = (rows'.map Row.opening_balance).sum := by
  induction per generalizing rows rows' with
  | nil =>
      simp only [getAll, Option.some.injEq] at h h'
      subst h; subst h'
      rfl
  | cons p rest ih =>
      obtain ⟨s, sch⟩ := p
      simp only [getAll, Option.bind_eq_bind] at h h'
      cases hsch : sch.get? i with
      | none => rw [hsch] at h; simp at h
      | some a =>
          rw [hsch] at h
          cases hrest : getAll rest i with
          | none => rw [hrest] at h; simp at h
          | some rs =>
              rw [hrest] at h
              simp only [Option.some_bind, Option.pure_def,
                Option.some.injEq] at h
              subst h
              cases hsch' : sch.get? (i + 1) with
              | none => rw [hsch'] at h'; simp at h'
              | some b =>
                  rw [hsch'] at h'
                  cases hrest' : getAll rest (i + 1) with
                  | none => rw [hrest'] at h'; simp at h'
                  | some rs' =>
                      rw [hrest'] at h'
                      simp only [Option.some_bind, Option.pure_def,
                        Option.some.injEq] at h'
                      subst h'
                      simp only [List.map_cons, List.sum_cons]
                      rw [chain'_rel_of_get
                          (hch (s, sch) (List.mem_cons_self _ _)) hsch hsch',
                        ih hrest hrest'
                          fun q hq => hch q (List.mem_cons_of_mem _ hq)]

theorem getAll_none_of_short {per : List (String × List Row)} {i : ℕ}
    {p : String × List Row} (hp : p ∈ per) (hshort : p.2.length ≤ i) :
    getAll per i = none := by
  induction per with
  | nil => simp at hp
  | cons q rest ih =>
      obtain ⟨s, sch⟩ := q
      rcases List.mem_cons.mp hp with rfl | hp
      · simp only [getAll, Option.bind_eq_bind]
        rw [List.get?_eq_none.mpr hshort]
        rfl
      · simp only [getAll, Option.bind_eq_bind]
        cases hsch : sch.get? i with
        | none => rfl
        | some a => rw [ih hp]; rfl

theorem sumFrom_fail (per : List (String × List Row)) (ref : List Row) :
    ∀ (k i j : ℕ), i ≤ j → j < i + k → getAll per j = none →
      sumFrom per ref i k = none := by
  intro k
  induction k with
  | zero => intro i j h1 h2 _; omega
  | succ k ih =>
      intro i j h1 h2 hnone
      by_cases hij : j = i
      · subst hij
        simp only [sumFrom, Option.bind_eq_bind, hnone, Option.none_bind]
      · have hj : i + 1 ≤ j := by omega
        simp only [sumFrom, Option.bind_eq_bind]
        cases hga : getAll per i with
        | none => rfl
        | some rows =>
            rw [ih (i + 1) j hj (by omega) hnone]
            rfl

theorem sumFrom_spec (per : List (String × List Row)) (ref : List Row)
    (hch : ∀ p ∈ per,
      List.Chain' (fun a b => a.ending_balance = b.opening_balance) p.2)
    (hpe : ∀ p ∈ per, ∀ r ∈ p.2, r.payment = r.interest + r.principal)
    (hc : ∀ p ∈ per, ∀ r ∈ p.2, Cents r.opening_balance ∧ Cents r.payment ∧
      Cents r.interest ∧ Cents r.principal ∧ Cents r.ending_balance) :
    ∀ (k i : ℕ), (∀ p ∈ per, i + k ≤ p.2.length) →
      ∃ out, sumFrom per ref i k = some out ∧ out.length = k ∧
        List.Chain' (fun a b => a.ending_balance = b.opening_balance) out ∧
        (∀ r ∈ out, r.payment = r.interest + r.principal) ∧
        (∀ r ∈ out, Cents r.payment ∧ Cents r.interest ∧ Cents r.principal) ∧
        (∀ rows, getAll per i = some rows → k ≠ 0 →
          (out.head?).map Row.opening_balance =
            some ((rows.map Row.opening_balance).sum)) := by
  intro k
  induction k with
  | zero =>
      intro i _
      exact ⟨[], rfl, rfl, List.chain'_nil, by simp, by simp,
        fun _ _ h => absurd rfl h⟩
  | succ k ih =>
      intro i hlen
      have hi : ∀ p ∈ per, i < p.2.length := fun p hp => by
        have := hlen p hp; omega
      obtain ⟨rows, hrows⟩ := getAll_some hi
      obtain ⟨rest, hrest, hrlen, hrchain, hrpay, hrcent, hrhead⟩ :=
        ih (i + 1) (fun p hp => by have := hlen p hp; omega)
      -- facts about row `i`'s column
      have hmem : ∀ r ∈ rows, ∃ p, p ∈ per ∧ p.2.get? i = some r :=
        getAll_mem hrows
      have hmem' : ∀ r ∈ rows, ∃ p ∈ per, r ∈ p.2 := by
        intro r hr
        obtain ⟨p, hp, hpr⟩ := hmem r hr
        exact ⟨p, hp, List.get?_mem hpr⟩
      have hCop : Cents ((rows.map Row.opening_balance).sum) := by
        apply cents_map_sum
        intro r hr
        obtain ⟨p, hp, hpr⟩ := hmem' r hr
        exact (hc p hp r hpr).1
      have hCpay : Cents ((rows.map Row.payment).sum) := by
        apply cents_map_sum
        intro r hr
        obtain ⟨p, hp, hpr⟩ := hmem' r hr
        exact (hc p hp r hpr).2.1
      have hCint : Cents ((rows.map Row.interest).sum) := by
        apply cents_map_sum
        intro r hr
        obtain ⟨p, hp, hpr⟩ := hmem' r hr
        exact (hc p hp r hpr).2.2.1
      have hCpr : Cents ((rows.map Row.principal).sum) := by
        apply cents_map_sum
        intro r hr
        obtain ⟨p, hp, hpr⟩ := hmem' r hr
        exact (hc p hp r hpr).2.2.2.1
      have hCend : Cents ((rows.map Row.ending_balance).sum) := by
        apply cents_map_sum
        intro r hr
        obtain ⟨p, hp, hpr⟩ := hmem' r hr
        exact (hc p hp r hpr).2.2.2.2
      have hpaysum : (rows.map Row.payment).sum =
          (rows.map Row.interest).sum + (rows.map Row.principal).sum := by
        apply sum_map_eq_add_of_mem
        intro r hr
        obtain ⟨p, hp, hpr⟩ := hmem' r hr
        exact hpe p hp r hpr
      refine ⟨_, by
        simp only [sumFrom, Option.bind_eq_bind]
        rw [hrows, hrest]
        rfl, ?_, ?_, ?_, ?_, ?_⟩
      · simp [hrlen]
      · -- chain
        rw [List.chain'_cons']
        refine ⟨?_, hrchain⟩
        intro b hb
        cases k with
        | zero =>
            rw [List.length_eq_zero.mp hrlen] at hb
            simp at hb
        | succ k' =>
            obtain ⟨rows', hrows'⟩ :=
              @getAll_some per (i + 1)
                (fun p hp => by have := hlen p hp; omega)
            have hhead := hrhead rows' hrows' (Nat.succ_ne_zero k')
            cases hout : rest.head? with
            | none => rw [hout] at hb; simp at hb
            | some hd =>
                rw [hout] at hb hhead
                simp only [Option.mem_def, Option.some.injEq] at hb
                subst hb
                simp only [Option.map_some', Option.some.injEq] at hhead
                simp only
                rw [hCend.q2_eq,
                  getAll_sum_rel hrows hrows' hch, hhead]
      · -- payment identity
        intro r hr
        rcases List.mem_cons.mp hr with rfl | hr
        · simp only
          rw [hCpay.q2_eq, hCint.q2_eq, hCpr.q2_eq, hpaysum]
        · exact hrpay r hr
      · -- Cents of the output fields
        intro r hr
        rcases List.mem_cons.mp hr with rfl | hr
        · exact ⟨cents_q2 _, cents_q2 _, cents_q2 _⟩
        · exact hrcent r hr
      · -- head opening
        intro rows0 hrows0 _
        rw [hrows0] at hrows
        cases hrows
        simp only [List.head?_cons, Option.map_some', Option.some.injEq]
        exact hCop.q2_eq

theorem sumFrom_some (per : List (String × List Row)) (ref : List Row) :
    ∀ (k i : ℕ), (∀ p ∈ per, i + k ≤ p.2.length) →
      ∃ out, sumFrom per ref i k = some out ∧ out.length = k := by
  intro k
  induction k with
  | zero => intro i _; exact ⟨[], rfl, rfl⟩
  | succ k ih =>
      intro i hlen
      obtain ⟨rows, hrows⟩ := @getAll_some per i
        (fun p hp => by have := hlen p hp; omega)
      obtain ⟨rest, hrest, hrlen⟩ :=
        ih (i + 1) (fun p hp => by have := hlen p hp; omega)
      refine ⟨_, by
        simp only [sumFrom, Option.bind_eq_bind]
        rw [hrows, hrest]
        rfl, ?_⟩
      simp [hrlen]

/-- **C4** (amended). `sum_schedules` fails with an index-out-of-range error
exactly when some schedule is *shorter than the first-listed (reference)
schedule*; when every schedule is at least as long as the first, it succeeds
and silently truncates the longer ones to the reference length. Equal-length
inputs remain a caller-guaranteed precondition. -/
theorem sum_schedules_short_vs_truncate (s0 : String) (ref : List Row)
    (rest : List (String × List Row)) :
    ((∃ p ∈ (s0, ref) :: rest, p.2.length < ref.length) →
      sum_schedules ((s0, ref) :: rest) = none) ∧
    ((∀ p ∈ (s0, ref) :: rest, ref.length ≤ p.2.length) →
      ∃ out, sum_schedules ((s0, ref) :: rest) = some out ∧
        out.length = ref.length) := by
  constructor
  · rintro ⟨p, hp, hshort⟩
    show sumFrom ((s0, ref) :: rest) ref 0 ref.length = none
    exact sumFrom_fail _ _ ref.length 0 p.2.length (Nat.zero_le _)
      (by omega) (getAll_none_of_short hp le_rfl)
  · intro hlen
    obtain ⟨out, hout, holen⟩ := sumFrom_some ((s0, ref) :: rest) ref
      ref.length 0 (fun p hp => by have := hlen p hp; omega)
    exact ⟨out, hout, holen⟩

/-- A sample schedule row (arbitrary cent values) for concrete inputs. -/
def rowOne : Row :=
  { month := 1, opening_balance := 10, payment := 6, interest := 1,
    principal := 5, ending_balance := 5 }

/-- First sample row of a two-month schedule. -/
def rowTwoA : Row :=
  { month := 1, opening_balance := 100, payment := 60, interest := 10,
    principal := 50, ending_balance := 50 }

/-- Second sample row of a two-month schedule. -/
def rowTwoB : Row :=
  { month := 2, opening_balance := 50, payment := 55, interest := 5,
    principal := 50, ending_balance := 0 }

/-- **C4** counterexample to the claim as stated: schedules of unequal
lengths (1 and 2) where the *first* is the shortest do **not** raise an
index error — `sum_schedules` silently truncates to one row. -/
theorem sum_schedules_mismatch_cex :
    ([rowOne].length ≠ [rowTwoA, rowTwoB].length) ∧
    sum_schedules [("A", [rowOne]), ("B", [rowTwoA, rowTwoB])] =
      some [{ month := 1, opening_balance := 110, payment := 66,
              interest := 11, principal := 55, ending_balance := 55 }] := by
  refine ⟨by simp, ?_⟩
  show sumFrom _ _ 0 1 = _
  simp only [sumFrom, getAll, Option.bind_eq_bind, rowOne, rowTwoA, rowTwoB]
  norm_num [q2, rnd]

/-- Witness for `sum_schedules_short_vs_truncate`: a later schedule (one
row) shorter than the reference (two rows) makes `sum_schedules` fail. -/
theorem sum_schedules_short_vs_truncate_witness :
    (∃ p ∈ [("A", [rowTwoA, rowTwoB]), ("B", [rowOne])],
      p.2.length < [rowTwoA, rowTwoB].length) ∧
    sum_schedules [("A", [rowTwoA, rowTwoB]), ("B", [rowOne])] = none :=
  ⟨⟨("B", [rowOne]), by simp, by simp⟩,
    (sum_schedules_short_vs_truncate "A" [rowTwoA, rowTwoB]
        [("B", [rowOne])]).1 ⟨("B", [rowOne]), by simp, by simp⟩⟩


/-- The schedules attached per asset: the per-asset loop of
`attach_amortization` maps each asset to
`amortization_schedule(loan_usd, interest_rate, months).schedule`. -/
def perAssetSchedules (inputs : List (String × ℚ × ℚ)) (n : ℤ) :
    List (String × List Row) :=
  inputs.map (fun x => (x.1, (amortization_schedule x.2.1 x.2.2 n).schedule))

theorem getAll_zero_opening_sum {inputs : List (String × ℚ × ℚ)} {n : ℤ}
    (hn : 0 < n) (hin : ∀ x ∈ inputs, 0 < x.2.1 ∧ Cents x.2.1)
    {rows : List Row}
    (h : getAll (perAssetSchedules inputs n) 0 = some rows) :
    (rows.map Row.opening_balance).sum = (inputs.map (fun x => x.2.1)).sum := by
  induction inputs generalizing rows with
  | nil =>
      simp only [perAssetSchedules, List.map_nil, getAll,
        Option.some.injEq] at h
      subst h
      rfl
  | cons x xs ih =>
      simp only [perAssetSchedules, List.map_cons, getAll,
        Option.bind_eq_bind] at h
      cases hsch : (amortization_schedule x.2.1 x.2.2 n).schedule.get? 0 with
      | none => rw [hsch] at h; simp at h
      | some r0 =>
          rw [hsch] at h
          cases hrest : getAll (perAssetSchedules xs n) 0 with
          | none =>
              rw [show getAll (xs.map fun x =>
                (x.1, (amortization_schedule x.2.1 x.2.2 n).schedule)) 0 =
                  none from hrest] at h
              simp at h
          | some rs =>
              rw [show getAll (xs.map fun x =>
                (x.1, (amortization_schedule x.2.1 x.2.2 n).schedule)) 0 =
                  some rs from hrest] at h
              simp only [Option.some_bind, Option.pure_def,
                Option.some.injEq] at h
              subst h
              have hfst := amortization_schedule_first_opening x.2.1 x.2.2 n hn
                (hin x (List.mem_cons_self x xs)).1
                (hin x (List.mem_cons_self x xs)).2
              rw [← List.get?_zero, hsch, Option.map_some',
                Option.some.injEq] at hfst
              simp only [List.map_cons, List.sum_cons]
              rw [hfst, ih (fun y hy => hin y (List.mem_cons_of_mem x hy)) hrest]

/-- **C3**. For inputs with positive cent-valued principals and `months > 0`:
in every per-asset schedule the first row's opening balance equals the
principal, consecutive rows chain (`opening[m+1] = ending[m]`), and every
row satisfies `payment = round(interest + principal, 2)`; the
pointwise-summed portfolio schedule satisfies the same three invariants,
with the total principal as its first opening balance. -/
theorem schedule_and_portfolio_invariants
    (inputs : List (String × ℚ × ℚ)) (n : ℤ)
    (hn : 0 < n) (hin : ∀ x ∈ inputs, 0 < x.2.1 ∧ Cents x.2.1) :
    (∀ x ∈ inputs,
      (((amortization_schedule x.2.1 x.2.2 n).schedule.head?).map
        Row.opening_balance = some x.2.1) ∧
      List.Chain' (fun a b => a.ending_balance = b.opening_balance)
        (amortization_schedule x.2.1 x.2.2 n).schedule ∧
      (∀ r ∈ (amortization_schedule x.2.1 x.2.2 n).schedule,
        r.payment = q2 (r.interest + r.principal))) ∧
    (∃ out, sum_schedules (perAssetSchedules inputs n) = some out ∧
      List.Chain' (fun a b => a.ending_balance = b.opening_balance) out ∧
      (∀ r ∈ out, r.payment = q2 (r.interest + r.principal)) ∧
      (inputs ≠ [] → (out.head?).map Row.opening_balance =
        some ((inputs.map (fun x => x.2.1)).sum))) := by
  constructor
  · intro x hx
    refine ⟨amortization_schedule_first_opening x.2.1 x.2.2 n hn
      (hin x hx).1 (hin x hx).2, amortization_schedule_chain x.2.1 x.2.2 n, ?_⟩
    intro r hr
    have hcr := amortization_schedule_cents x.2.1 x.2.2 n r hr
    rw [(hcr.2.2.1.add hcr.2.2.2.1).q2_eq]
    exact amortization_schedule_pay_exact x.2.1 x.2.2 n r hr
  · cases inputs with
    | nil =>
        exact ⟨[], rfl, List.chain'_nil, by simp, fun h => absurd rfl h⟩
    | cons x xs =>
        have hxP := (hin x (List.mem_cons_self x xs)).1
        have hmemlen : ∀ p ∈ perAssetSchedules (x :: xs) n,
            p.2.length = n.toNat := by
          intro p hp
          obtain ⟨y, hy, rfl⟩ := List.mem_map.mp hp
          exact amortization_schedule_length y.2.1 y.2.2 n hn (hin y hy).1
        have hch : ∀ p ∈ perAssetSchedules (x :: xs) n,
            List.Chain' (fun a b => a.ending_balance = b.opening_balance)
              p.2 := by
          intro p hp
          obtain ⟨y, hy, rfl⟩ := List.mem_map.mp hp
          exact amortization_schedule_chain y.2.1 y.2.2 n
        have hpe : ∀ p ∈ perAssetSchedules (x :: xs) n, ∀ r ∈ p.2,
            r.payment = r.interest + r.principal := by
          intro p hp
          obtain ⟨y, hy, rfl⟩ := List.mem_map.mp hp
          exact amortization_schedule_pay_exact y.2.1 y.2.2 n
        have hc : ∀ p ∈ perAssetSchedules (x :: xs) n, ∀ r ∈ p.2,
            Cents r.opening_balance ∧ Cents r.payment ∧ Cents r.interest ∧
            Cents r.principal ∧ Cents r.ending_balance := by
          intro p hp
          obtain ⟨y, hy, rfl⟩ := List.mem_map.mp hp
          exact amortization_schedule_cents y.2.1 y.2.2 n
        have hreflen : (amortization_schedule x.2.1 x.2.2 n).schedule.length =
            n.toNat :=
          amortization_schedule_length x.2.1 x.2.2 n hn hxP
        obtain ⟨out, hout, holen, hochain, hopay, hocent, hohead⟩ :=
          sumFrom_spec (perAssetSchedules (x :: xs) n)
            (amortization_schedule x.2.1 x.2.2 n).schedule hch hpe hc
            (amortization_schedule x.2.1 x.2.2 n).schedule.length 0
            (fun p hp => by rw [hmemlen p hp, hreflen]; omega)
        refine ⟨out, hout, hochain, ?_, ?_⟩
        · intro r hr
          rw [((hocent r hr).2.1.add (hocent r hr).2.2).q2_eq]
          exact hopay r hr
        · intro _
          obtain ⟨rows, hrows⟩ := @getAll_some
            (perAssetSchedules (x :: xs) n) 0
            (fun p hp => by rw [hmemlen p hp]; omega)
          rw [hohead rows hrows (by rw [hreflen]; omega)]
          rw [getAll_zero_opening_sum hn hin hrows]

/-- Witness for `schedule_and_portfolio_invariants`: one asset with a $100
cent-valued principal at 12% for 2 months. -/
theorem schedule_and_portfolio_invariants_witness :
    (0 : ℤ) < 2 ∧
    (∀ x ∈ [(("BTC" : String), (100 : ℚ), (12/100 : ℚ))],
      0 < x.2.1 ∧ Cents x.2.1) ∧
    ((∀ x ∈ [(("BTC" : String), (100 : ℚ), (12/100 : ℚ))],
      (((amortization_schedule x.2.1 x.2.2 2).schedule.head?).map
        Row.opening_balance = some x.2.1) ∧
      List.Chain' (fun a b => a.ending_balance = b.opening_balance)
        (amortization_schedule x.2.1 x.2.2 2).schedule ∧
      (∀ r ∈ (amortization_schedule x.2.1 x.2.2 2).schedule,
        r.payment = q2 (r.interest + r.principal))) ∧
    (∃ out, sum_schedules
        (perAssetSchedules [(("BTC" : String), (100 : ℚ), (12/100 : ℚ))] 2) =
          some out ∧
      List.Chain' (fun a b => a.ending_balance = b.opening_balance) out ∧
      (∀ r ∈ out, r.payment = q2 (r.interest + r.principal)) ∧
      ([(("BTC" : String), (100 : ℚ), (12/100 : ℚ))] ≠ [] →
        (out.head?).map Row.opening_balance =
          some (([(("BTC" : String), (100 : ℚ), (12/100 : ℚ))].map
            (fun x => x.2.1)).sum)))) :=
  have hin : ∀ x ∈ [(("BTC" : String), (100 : ℚ), (12/100 : ℚ))],
      0 < x.2.1 ∧ Cents x.2.1 := by
    intro x hx
    rw [List.mem_singleton] at hx
    subst hx
    exact ⟨by norm_num, ⟨10000, by norm_num⟩⟩
  ⟨by norm_num, hin,
    schedule_and_portfolio_invariants
      [(("BTC" : String), (100 : ℚ), (12/100 : ℚ))] 2 (by norm_num) hin⟩


/-! ## Python value model for metrics dictionaries -/

/-- A Python value as it appears in a metrics dictionary. -/
inductive PyVal where
  | none
  | num (q : ℚ)
  | str (s : String)
  | bool (b : Bool)
  deriving Repr, DecidableEq

/-- Python truthiness: `None`, `0`, `""` and `False` are falsy. -/
def PyVal.truthy : PyVal → Bool
  | .none => false
  | .num q => decide (q ≠ 0)
  | .str s => decide (s ≠ "")
  | .bool b => b

/-- Python's short-circuiting `a or b`: `a` if truthy, else `b`. -/
def pyOr (a b : PyVal) : PyVal := if a.truthy then a else b

/-- A metrics dictionary: insertion-ordered association list. -/
def Metrics : Type := List (String × PyVal)

/-- `metrics.get(key)`: the stored value, or Python's `None` when the key is
absent. -/
def getVal (m : Metrics) (key : String) : PyVal :=
  match m with
  | [] => .none
  | (k, v) :: rest => if k = key then v else getVal rest key

/-- Value of a digit string read left to right. -/
def digitsToNat (cs : List Char) : ℕ :=
  cs.foldl (fun a c => 10 * a + (c.toNat - ('0').toNat)) 0

/-- Model of Python `float(s)` on plain decimal literals
(`[sign] digits [. digits]`); other strings are unparseable (`None`). -/
def strToRatVal (s : String) : Option ℚ :=
  let cs := s.toList
  let signed : ℚ × List Char :=
    match cs with
    | '-' :: t => (-1, t)
    | '+' :: t => (1, t)
    | _ => (1, cs)
  match (signed.2).span Char.isDigit with
  | (intPart, []) =>
      if intPart = [] then Option.none
      else some (signed.1 * (digitsToNat intPart : ℚ))
  | (intPart, '.' :: frac) =>
      if frac.all Char.isDigit ∧ (intPart ≠ [] ∨ frac ≠ []) then
        some (signed.1 * ((digitsToNat intPart : ℚ) +
          (digitsToNat frac : ℚ) / 10 ^ frac.length))
      else Option.none
  | _ => Option.none

/-- Model of `float(v)` under `try/except`: `none` is the swallowed
exception. -/
def pyFloat : PyVal → Option ℚ
  | .num q => some q
  | .bool b => some (if b then 1 else 0)
  | .str s => strToRatVal s
  | .none => Option.none

/-! ## Errors (`src/domain/errors.py`) -/

/-- Raised exceptions: `BadRequest` from validation, `ValueError` from the
tier table. -/
inductive AppErr where
  | badRequest (msg : String)
  | valueError (msg : String)
  deriving Repr, DecidableEq

/-! ## Tier table (`src/domain/risk_tiers.py`) -/

/-- One entry of `RISK_TIERS`. -/
structure TierInfo where
  ltv : ℚ
  risk_premium : ℚ
  note : String
  deriving Repr, DecidableEq

/-- The `RISK_TIERS` policy table. -/
def RISK_TIERS : List (String × TierInfo) :=
  [("Tier 1", ⟨72/100, 5/100, "Blue-chip, high liquidity"⟩),
   ("Tier 1.5", ⟨65/100, 10/100, "Large-cap, strong liquidity"⟩),
   ("Tier 2", ⟨60/100, 15/100, "Mid-cap, moderate liquidity"⟩),
   ("Tier 3", ⟨55/100, 25/100, "High volatility / risk"⟩)]

/-- `tier_info(tier)`: the table entry, or a `ValueError` for an unknown
name. -/
def tier_info (tier : String) : Except AppErr TierInfo :=
  match RISK_TIERS.lookup tier with
  | some info => .ok info
  | Option.none => .error (.valueError ("Unknown risk tier: " ++ tier))

/-! ## Loan engine (`src/services/loan_engine.py`) -/

/-- Base/Federal rate, 6.33% as a fraction. -/
def BASE_RATE : ℚ := 633/10000

/-- `_get_pct_change_30d(metrics)`: first truthy value among the three keys
(Python `or` chain, left-associated), passed through `float` with the
exception swallowed to `None`. -/
def get_pct_change_30d (metrics : Metrics) : Option ℚ :=
  pyFloat (pyOr (pyOr (getVal metrics "pct_change_30d")
    (getVal metrics "pct_change_30")) (getVal metrics "30dChange(%)"))

/-- `volatility_premium_from_metrics(metrics)`. -/
def volatility_premium_from_metrics (metrics : Metrics) : ℚ :=
  match get_pct_change_30d metrics with
  | Option.none => 1/100
  | some ch30 =>
      let a := |ch30|
      if a < 10 then 1/100
      else if a < 20 then 3/200
      else 1/50

/-- The four rate pieces returned by `interest_components_for_asset`. -/
structure InterestComponents where
  base_rate : ℚ
  risk_premium : ℚ
  volatility_premium : ℚ
  interest_rate : ℚ
  deriving Repr, DecidableEq

/-- `interest_components_for_asset(tier, metrics)`: each interest piece
(4-decimal rounded) and their total. -/
def interest_components_for_asset (tier : String) (metrics : Metrics) :
    Except AppErr InterestComponents :=
  match tier_info tier with
  | .error e => .error e
  | .ok info =>
      let base := BASE_RATE
      let risk := info.risk_premium
      let vol := volatility_premium_from_metrics metrics
      let total := base + risk + vol
      .ok { base_rate := q4 base, risk_premium := q4 risk,
            volatility_premium := q4 vol, interest_rate := q4 total }

/-- `AssetBreakdown`: the per-asset view built by `per_asset_breakdown`. -/
structure AssetBreakdown where
  symbol : String
  tier : String
  ltv : ℚ
  base_rate : ℚ
  risk_premium : ℚ
  volatility_premium : ℚ
  interest_rate : ℚ
  collateral_usd : ℚ
  loan_usd : ℚ
  pct_change_30d : Option ℚ
  deriving Repr, DecidableEq

/-- `per_asset_breakdown(alloc_usd, tier, metrics, symbol)`. -/
def per_asset_breakdown (alloc_usd : ℚ) (tier : String) (metrics : Metrics)
    (symbol : String) : Except AppErr AssetBreakdown :=
  match tier_info tier with
  | .error e => .error e
  | .ok info =>
      match interest_components_for_asset tier metrics with
      | .error e => .error e
      | .ok ic =>
          let loan_amount := alloc_usd * info.ltv
          .ok { symbol := symbol, tier := tier, ltv := info.ltv,
                base_rate := ic.base_rate, risk_premium := ic.risk_premium,
                volatility_premium := ic.volatility_premium,
                interest_rate := ic.interest_rate,
                collateral_usd := q2 alloc_usd, loan_usd := q2 loan_amount,
                pct_change_30d := get_pct_change_30d metrics }

/-- `PortfolioSummary`: the dictionary returned by `portfolio_aggregate`. -/
structure Summary where
  total_collateral : ℚ
  total_loan : ℚ
  portfolio_ltv : ℚ
  liquidation_ltv : ℚ
  margin_call_ltv : ℚ
  interest_rate : ℚ
  monthly_emi : ℚ
  months : ℤ
  deriving Repr, DecidableEq

/-- `portfolio_aggregate(rows, months)`: LTV and rate fields are percent
values; `monthly_emi` is the provisional aggregate-rate EMI. -/
def portfolio_aggregate (rows : List AssetBreakdown) (months : ℤ) : Summary :=
  let total_collateral := (rows.map (fun r => r.collateral_usd)).sum
  let total_loan := (rows.map (fun r => r.loan_usd)).sum
  let weighted_ltv := if total_collateral = 0 then 0
    else total_loan / total_collateral
  let weighted_ir := (rows.map (fun r =>
    r.interest_rate * (if total_loan = 0 then 0
      else r.loan_usd / total_loan))).sum
  let liquidation_ltv := min (weighted_ltv * (12/10)) (95/100)
  let margin_call_pct := (weighted_ltv * 100 + liquidation_ltv * 100) / 2
  let r_month := weighted_ir / 12
  let n := months
  let P := total_loan
  let emi := if 0 < n then
      (if 0 < r_month then P * r_month / (1 - (1 + r_month) ^ (-n))
       else P / (n : ℚ))
    else 0
  { total_collateral := q2 total_collateral, total_loan := q2 total_loan,
    portfolio_ltv := q2 (weighted_ltv * 100),
    liquidation_ltv := q2 (liquidation_ltv * 100),
    margin_call_ltv := q2 margin_call_pct,
    interest_rate := q2 (weighted_ir * 100),
    monthly_emi := q2 emi, months := n }

/-- The `schedule` object added by `attach_amortization`. -/
structure Sched where
  portfolio : List Row
  assets : List (String × List Row)
  payments : List (String × ℚ)
  deriving Repr, DecidableEq

/-- `LoanProfile`: the top-level output (`schedule` is `Option.none` until
`attach_amortization` adds it). -/
structure Profile where
  assets : List AssetBreakdown
  summary : Summary
  schedule : Option Sched
  deriving Repr, DecidableEq

/-- `attach_amortization(out)`: per-asset schedules, the summed portfolio
schedule, and the authoritative EMI `round(sum of per-asset payments, 2)`
overwriting the provisional one. `Option.none` models a propagated
`IndexError` from `sum_schedules`. The source's `"assets" not in out`
guard is vacuous here because `Profile` always carries both keys. -/
def attach_amortization (out : Profile) : Option Profile :=
  let months := out.summary.months
  if months ≤ 0 then
    some ({ out with
      schedule := some (Sched.mk [] [] []),
      summary := { out.summary with monthly_emi := 0 } })
  else
    let per_asset_sched := out.assets.map (fun a =>
      (a.symbol, (amortization_schedule a.loan_usd a.interest_rate months).schedule))
    let per_asset_payment := out.assets.map (fun a =>
      (a.symbol, (amortization_schedule a.loan_usd a.interest_rate months).payment))
    match sum_schedules per_asset_sched with
    | Option.none => Option.none
    | some portfolio_sched =>
        let monthly_emi := (per_asset_payment.map (fun p => p.2)).sum
        some ({ out with
          summary := { out.summary with monthly_emi := q2 monthly_emi },
          schedule := some
            (Sched.mk portfolio_sched per_asset_sched per_asset_payment) })

/-! ## HTTP route (`src/api/routes.py`, `loan_calculate`) -/

/-- Model of Python's `str.upper()` (character-wise ASCII uppercase, which
covers every symbol this API sees); Lean's `String.toUpper` is the same map
but is defined by well-founded recursion on byte positions. -/
def strUpper (s : String) : String := String.mk (s.data.map Char.toUpper)

/-- One entry of the request's `assets` list, after JSON extraction:
`symbol` is `a.get("symbol") or ""`, `allocation_usd` is
`float(a.get("allocation_usd") or 0)`, `tier` the optional override. -/
structure ReqAsset where
  symbol : String
  allocation_usd : ℚ
  tier : Option String
  deriving Repr, DecidableEq

/-- Python truthiness of the optional tier override (`not tier_req`):
absent and empty-string overrides are falsy. -/
def tierTruthy : Option String → Bool
  | Option.none => false
  | some s => decide (s ≠ "")

/-- The tier-selection branch of `loan_calculate`: USDT is forced to
`Tier 1` unless overridden; otherwise the override, else the model
classification. -/
def resolveTier (classify : String → String) (symbol : String)
    (tier_req : Option String) : String :=
  if symbol = "USDT" ∧ ¬tierTruthy tier_req then "Tier 1"
  else if tierTruthy tier_req then tier_req.getD "" else classify symbol

/-- The per-asset loop of `loan_calculate`: validate, resolve the tier,
fetch metrics, price. `classify` models `_model.risk_tier` and `metricsOf`
models `get_metrics` (its `try/except` makes it total). -/
def buildRows (classify : String → String) (metricsOf : String → Metrics) :
    List ReqAsset → Except AppErr (List AssetBreakdown)
  | [] => .ok []
  | a :: rest =>
      let symbol := strUpper a.symbol
      let alloc := a.allocation_usd
      if symbol = "" ∨ alloc ≤ 0 then
        .error (.badRequest "asset symbol and positive allocation_usd required")
      else
        match per_asset_breakdown alloc (resolveTier classify symbol a.tier)
            (metricsOf symbol) symbol with
        | .error e => .error e
        | .ok row =>
            match buildRows classify metricsOf rest with
            | .error e => .error e
            | .ok rows => .ok (row :: rows)

/-- `loan_calculate` from `src/api/routes.py`: the profile returned to the
caller. Note that it returns directly after `portfolio_aggregate`; no
schedule is attached. -/
def loan_calculate (classify : String → String) (metricsOf : String → Metrics)
    (assets : List ReqAsset) (months : ℤ) : Except AppErr Profile :=
  if assets = [] then .error (.badRequest "assets is required")
  else
    match buildRows classify metricsOf assets with
    | .error e => .error e
    | .ok rows =>
        let summary := portfolio_aggregate rows months
        .ok { assets := rows, summary := { summary with months := months },
              schedule := Option.none }

/-- Number of `per_asset_breakdown` calls `loan_calculate` performs before
terminating (normally or by an exception): assets are processed one by one,
and validation of each asset happens just before pricing it. -/
def pricedAssets (classify : String → String) (metricsOf : String → Metrics) :
    List ReqAsset → ℕ
  | [] => 0
  | a :: rest =>
      let symbol := strUpper a.symbol
      if symbol = "" ∨ a.allocation_usd ≤ 0 then 0
      else
        match per_asset_breakdown a.allocation_usd
            (resolveTier classify symbol a.tier) (metricsOf symbol) symbol with
        | .error _ => 1
        | .ok _ => 1 + pricedAssets classify metricsOf rest


/-- **C7**. The volatility premium is `0.01` when the 30-day change is
missing or unparseable, `0.01` when `|v| < 10`, `0.015` when
`10 ≤ |v| < 20`, and `0.02` when `|v| ≥ 20`. -/
theorem volatility_premium_bands (metrics : Metrics) :
    (get_pct_change_30d metrics = Option.none →
      volatility_premium_from_metrics metrics = 1/100) ∧
    (∀ v, get_pct_change_30d metrics = some v →
      ((|v| < 10 → volatility_premium_from_metrics metrics = 1/100) ∧
       (10 ≤ |v| → |v| < 20 →
          volatility_premium_from_metrics metrics = 3/200) ∧
       (20 ≤ |v| → volatility_premium_from_metrics metrics = 1/50))) := by
  constructor
  · intro h
    unfold volatility_premium_from_metrics
    rw [h]
  · intro v hv
    unfold volatility_premium_from_metrics
    rw [hv]
    dsimp only
    refine ⟨?_, ?_, ?_⟩
    · intro h1
      simp only [if_pos h1]
    · intro h1 h2
      rw [if_neg (not_lt.mpr h1), if_pos h2]
    · intro h1
      rw [if_neg (by linarith : ¬|v| < 10), if_neg (by linarith : ¬|v| < 20)]

/-- Witness for `volatility_premium_bands`: `pct_change_30d = 10` sits in
the middle band and yields `0.015`. -/
theorem volatility_premium_bands_witness :
    get_pct_change_30d [("pct_change_30d", PyVal.num 10)] = some 10 ∧
    (10 : ℚ) ≤ |(10 : ℚ)| ∧ |(10 : ℚ)| < 20 ∧
    volatility_premium_from_metrics [("pct_change_30d", PyVal.num 10)] =
      3/200 :=
  have h : get_pct_change_30d [("pct_change_30d", PyVal.num 10)] = some 10 := by
    norm_num [get_pct_change_30d, getVal, pyOr, PyVal.truthy, pyFloat]
  ⟨h, by norm_num, by norm_num,
    ((volatility_premium_bands [("pct_change_30d", PyVal.num 10)]).2 10 h).2.1
      (by norm_num) (by norm_num)⟩

/-- **C8**. The tier table returns exactly the four policy entries, and
every name outside the four-element set gets an "unknown tier" error, in
which case `per_asset_breakdown` produces no `AssetBreakdown` (it
propagates the same error). -/
theorem tier_info_table (s : String) (alloc : ℚ) (metrics : Metrics)
    (sym : String) (hs : s ∉ ["Tier 1", "Tier 1.5", "Tier 2", "Tier 3"]) :
    tier_info "Tier 1" =
      .ok ⟨72/100, 5/100, "Blue-chip, high liquidity"⟩ ∧
    tier_info "Tier 1.5" =
      .ok ⟨65/100, 10/100, "Large-cap, strong liquidity"⟩ ∧
    tier_info "Tier 2" =
      .ok ⟨60/100, 15/100, "Mid-cap, moderate liquidity"⟩ ∧
    tier_info "Tier 3" =
      .ok ⟨55/100, 25/100, "High volatility / risk"⟩ ∧
    tier_info s = .error (.valueError ("Unknown risk tier: " ++ s)) ∧
    per_asset_breakdown alloc s metrics sym =
      .error (.valueError ("Unknown risk tier: " ++ s)) := by
  simp only [List.mem_cons, List.mem_singleton, not_or] at hs
  obtain ⟨h1, h2, h3, h4, -⟩ := hs
  have hti : tier_info s = .error (.valueError ("Unknown risk tier: " ++ s)) := by
    unfold tier_info RISK_TIERS
    simp only [List.lookup]
    rw [show (s == "Tier 1") = false from beq_eq_false_iff_ne.mpr h1,
      show (s == "Tier 1.5") = false from beq_eq_false_iff_ne.mpr h2,
      show (s == "Tier 2") = false from beq_eq_false_iff_ne.mpr h3,
      show (s == "Tier 3") = false from beq_eq_false_iff_ne.mpr h4]
  refine ⟨rfl, rfl, rfl, rfl, hti, ?_⟩
  unfold per_asset_breakdown
  rw [hti]

/-- Witness for `tier_info_table` at the unknown name `"Tier 9"`. -/
theorem tier_info_table_witness :
    ("Tier 9" : String) ∉ ["Tier 1", "Tier 1.5", "Tier 2", "Tier 3"] ∧
    tier_info "Tier 9" =
      .error (.valueError ("Unknown risk tier: " ++ "Tier 9")) ∧
    per_asset_breakdown 100 "Tier 9" [] "BTC" =
      .error (.valueError ("Unknown risk tier: " ++ "Tier 9")) :=
  have hs : ("Tier 9" : String) ∉ ["Tier 1", "Tier 1.5", "Tier 2", "Tier 3"] := by
    decide
  ⟨hs, (tier_info_table "Tier 9" 100 [] "BTC" hs).2.2.2.2.1,
    (tier_info_table "Tier 9" 100 [] "BTC" hs).2.2.2.2.2⟩

/-- **C9**. `portfolio_aggregate` computes the weighted LTV as
`total_loan / total_collateral` (0 when the collateral total is 0), the
liquidation LTV as `min(weighted_ltv * 1.2, 0.95)`, and the margin-call
LTV as the midpoint, in percent, between the current and liquidation LTVs
(all surfaced as cent-rounded percent values). -/
theorem portfolio_aggregate_ltv_fields (rows : List AssetBreakdown)
    (months : ℤ) :
    (portfolio_aggregate rows months).portfolio_ltv =
      q2 ((if (rows.map (fun r => r.collateral_usd)).sum = 0 then 0
        else (rows.map (fun r => r.loan_usd)).sum /
          (rows.map (fun r => r.collateral_usd)).sum) * 100) ∧
    (portfolio_aggregate rows months).liquidation_ltv =
      q2 (min ((if (rows.map (fun r => r.collateral_usd)).sum = 0 then 0
        else (rows.map (fun r => r.loan_usd)).sum /
          (rows.map (fun r => r.collateral_usd)).sum) * (12/10)) (95/100)
        * 100) ∧
    (portfolio_aggregate rows months).margin_call_ltv =
      q2 (((if (rows.map (fun r => r.collateral_usd)).sum = 0 then 0
        else (rows.map (fun r => r.loan_usd)).sum /
          (rows.map (fun r => r.collateral_usd)).sum) * 100 +
        min ((if (rows.map (fun r => r.collateral_usd)).sum = 0 then 0
          else (rows.map (fun r => r.loan_usd)).sum /
            (rows.map (fun r => r.collateral_usd)).sum) * (12/10)) (95/100)
          * 100) / 2) :=
  ⟨rfl, rfl, rfl⟩

/-- **C10**. The key fallback treats falsy values (`0`, `""`, `None`,
`False`) as absent: when the value at `"pct_change_30d"` is falsy, the
chain reduces to the fallback keys; `{"pct_change_30d": 0}` yields `None`
(not `0.0`) in the breakdown, and
`{"pct_change_30d": 0, "30dChange(%)": 25}` yields premium `0.02`. -/
theorem pct_change_falsy_fallback (metrics : Metrics)
    (h : (getVal metrics "pct_change_30d").truthy = false) :
    get_pct_change_30d metrics =
      pyFloat (pyOr (getVal metrics "pct_change_30")
        (getVal metrics "30dChange(%)")) ∧
    get_pct_change_30d [("pct_change_30d", PyVal.num 0)] = Option.none ∧
    volatility_premium_from_metrics
      [("pct_change_30d", PyVal.num 0), ("30dChange(%)", PyVal.num 25)] =
      1/50 ∧
    (per_asset_breakdown 100 "Tier 1" [("pct_change_30d", PyVal.num 0)]
      "BTC").map AssetBreakdown.pct_change_30d = .ok Option.none := by
  refine ⟨?_, ?_, ?_, ?_⟩
  · unfold get_pct_change_30d
    by_cases h2 : (getVal metrics "pct_change_30").truthy
    · simp [pyOr, h, h2]
    · simp [pyOr, h, h2]
  · simp [get_pct_change_30d, getVal, pyOr, PyVal.truthy, pyFloat]
  · simp [volatility_premium_from_metrics, get_pct_change_30d, getVal,
      pyOr, PyVal.truthy, pyFloat]
    norm_num
  · simp [per_asset_breakdown, interest_components_for_asset, tier_info,
      RISK_TIERS, List.lookup, get_pct_change_30d, getVal, pyOr,
      PyVal.truthy, pyFloat, Except.map]

/-- Witness for `pct_change_falsy_fallback` at
`{"pct_change_30d": 0, "30dChange(%)": 25}` (falsy primary key). -/
theorem pct_change_falsy_fallback_witness :
    (getVal [("pct_change_30d", PyVal.num 0), ("30dChange(%)", PyVal.num 25)]
      "pct_change_30d").truthy = false ∧
    get_pct_change_30d
      [("pct_change_30d", PyVal.num 0), ("30dChange(%)", PyVal.num 25)] =
      pyFloat (pyOr (getVal
        [("pct_change_30d", PyVal.num 0), ("30dChange(%)", PyVal.num 25)]
        "pct_change_30") (getVal
        [("pct_change_30d", PyVal.num 0), ("30dChange(%)", PyVal.num 25)]
        "30dChange(%)")) :=
  have h : (getVal [("pct_change_30d", PyVal.num 0),
      ("30dChange(%)", PyVal.num 25)] "pct_change_30d").truthy = false := by
    norm_num [getVal, PyVal.truthy]
  ⟨h, (pct_change_falsy_fallback
    [("pct_change_30d", PyVal.num 0), ("30dChange(%)", PyVal.num 25)] h).1⟩

theorem volatility_premium_cases (metrics : Metrics) :
    volatility_premium_from_metrics metrics = 1/100 ∨
    volatility_premium_from_metrics metrics = 3/200 ∨
    volatility_premium_from_metrics metrics = 1/50 := by
  unfold volatility_premium_from_metrics
  cases get_pct_change_30d metrics with
  | none => left; rfl
  | some v =>
      dsimp only
      by_cases h1 : |v| < 10
      · left; rw [if_pos h1]
      · rw [if_neg h1]
        by_cases h2 : |v| < 20
        · right; left; rw [if_pos h2]
        · right; right; rw [if_neg h2]

theorem tier_info_cases {s : String} {info : TierInfo}
    (h : tier_info s = .ok info) :
    info = ⟨72/100, 5/100, "Blue-chip, high liquidity"⟩ ∨
    info = ⟨65/100, 10/100, "Large-cap, strong liquidity"⟩ ∨
    info = ⟨60/100, 15/100, "Mid-cap, moderate liquidity"⟩ ∨
    info = ⟨55/100, 25/100, "High volatility / risk"⟩ := by
  unfold tier_info RISK_TIERS at h
  simp only [List.lookup] at h
  by_cases h1 : (s == "Tier 1") = true
  · rw [h1] at h
    simp only [Except.ok.injEq] at h
    exact Or.inl h.symm
  · rw [Bool.eq_false_iff.mpr h1] at h
    by_cases h2 : (s == "Tier 1.5") = true
    · rw [h2] at h
      simp only [Except.ok.injEq] at h
      exact Or.inr (Or.inl h.symm)
    · rw [Bool.eq_false_iff.mpr h2] at h
      by_cases h3 : (s == "Tier 2") = true
      · rw [h3] at h
        simp only [Except.ok.injEq] at h
        exact Or.inr (Or.inr (Or.inl h.symm))
      · rw [Bool.eq_false_iff.mpr h3] at h
        by_cases h4 : (s == "Tier 3") = true
        · rw [h4] at h
          simp only [Except.ok.injEq] at h
          exact Or.inr (Or.inr (Or.inr h.symm))
        · rw [Bool.eq_false_iff.mpr h4] at h
          simp at h

/-- **C6**. For every known tier and metrics bundle,
`interest_components_for_asset` returns the four pieces rounded to 4
decimals half-up, with `base_rate = 0.0633` and the returned total equal to
the sum of the three returned components; Tier 1 with empty metrics gives
`interest_rate = 0.1233`, and a $250,000 Tier-1 allocation gives
`loan_usd = 180000.00`. -/
theorem interest_components_spec (tier : String) (metrics : Metrics)
    (info : TierInfo) (h : tier_info tier = .ok info) :
    interest_components_for_asset tier metrics =
      .ok { base_rate := q4 BASE_RATE, risk_premium := q4 info.risk_premium,
            volatility_premium := q4 (volatility_premium_from_metrics metrics),
            interest_rate := q4 (BASE_RATE + info.risk_premium +
              volatility_premium_from_metrics metrics) } ∧
    q4 BASE_RATE = 633/10000 ∧
    q4 (BASE_RATE + info.risk_premium + volatility_premium_from_metrics
        metrics) =
      q4 BASE_RATE + q4 info.risk_premium +
        q4 (volatility_premium_from_metrics metrics) ∧
    (interest_components_for_asset "Tier 1" []).map
      InterestComponents.interest_rate = .ok (1233/10000) ∧
    (per_asset_breakdown 250000 "Tier 1" [] "BTC").map
      AssetBreakdown.loan_usd = .ok 180000 := by
  refine ⟨?_, ?_, ?_, ?_, ?_⟩
  · unfold interest_components_for_asset
    rw [h]
  · norm_num [q4, rnd, BASE_RATE]
  · rcases tier_info_cases h with rfl | rfl | rfl | rfl <;>
      rcases volatility_premium_cases metrics with hv | hv | hv <;>
      rw [hv] <;> norm_num [q4, rnd, BASE_RATE]
  · simp [interest_components_for_asset, tier_info, RISK_TIERS, List.lookup,
      Except.map, volatility_premium_from_metrics, get_pct_change_30d,
      getVal, pyOr, PyVal.truthy, pyFloat]
    norm_num [q4, rnd, BASE_RATE]
  · simp [per_asset_breakdown, interest_components_for_asset, tier_info,
      RISK_TIERS, List.lookup, Except.map]
    norm_num [q2, rnd]

/-- Witness for `interest_components_spec` at Tier 1 with empty metrics. -/
theorem interest_components_spec_witness :
    tier_info "Tier 1" = .ok ⟨72/100, 5/100, "Blue-chip, high liquidity"⟩ ∧
    interest_components_for_asset "Tier 1" [] =
      .ok { base_rate := q4 BASE_RATE, risk_premium := q4 (5/100 : ℚ),
            volatility_premium := q4 (volatility_premium_from_metrics []),
            interest_rate := q4 (BASE_RATE + (5/100 : ℚ) +
              volatility_premium_from_metrics []) } :=
  ⟨rfl, (interest_components_spec "Tier 1" []
    ⟨72/100, 5/100, "Blue-chip, high liquidity"⟩ rfl).1⟩


/-- The validation predicate of the per-asset loop: non-empty (uppercased)
symbol and positive allocation. -/
def validAsset (a : ReqAsset) : Bool :=
  !(strUpper a.symbol == "" || decide (a.allocation_usd ≤ 0))

theorem validAsset_false_iff (a : ReqAsset) :
    validAsset a = false ↔
      (strUpper a.symbol = "" ∨ a.allocation_usd ≤ 0) := by
  simp [validAsset]
  tauto

theorem buildRows_invalid (classify : String → String)
    (metricsOf : String → Metrics) :
    ∀ (assets : List ReqAsset),
      (∀ b ∈ assets, validAsset b = true →
        ∃ row, per_asset_breakdown b.allocation_usd
          (resolveTier classify (strUpper b.symbol) b.tier)
          (metricsOf (strUpper b.symbol)) (strUpper b.symbol) = .ok row) →
      ∀ a ∈ assets, validAsset a = false →
        buildRows classify metricsOf assets =
          .error (.badRequest
            "asset symbol and positive allocation_usd required") ∧
        pricedAssets classify metricsOf assets =
          (assets.takeWhile validAsset).length := by
  intro assets
  induction assets with
  | nil => intro _ a ha; simp at ha
  | cons c rest ih =>
      intro hok a ha hainv
      by_cases hc : validAsset c = true
      · have hcprop : ¬(strUpper c.symbol = "" ∨ c.allocation_usd ≤ 0) := by
          intro hor
          rw [← validAsset_false_iff] at hor
          rw [hc] at hor
          cases hor
        have harest : a ∈ rest := by
          rcases List.mem_cons.mp ha with rfl | h
          · rw [hc] at hainv; cases hainv
          · exact h
        obtain ⟨row, hrow⟩ := hok c (List.mem_cons_self c rest) hc
        obtain ⟨he, hp⟩ := ih
          (fun b hb => hok b (List.mem_cons_of_mem c hb)) a harest hainv
        constructor
        · show (if strUpper c.symbol = "" ∨ c.allocation_usd ≤ 0 then _
            else _) = _
          rw [if_neg hcprop, hrow, he]
        · show (if strUpper c.symbol = "" ∨ c.allocation_usd ≤ 0 then _
            else _) = _
          rw [if_neg hcprop, hrow]
          dsimp only
          rw [hp, List.takeWhile_cons_of_pos hc, List.length_cons]
          omega
      · have hcprop : strUpper c.symbol = "" ∨ c.allocation_usd ≤ 0 :=
          (validAsset_false_iff c).mp (Bool.eq_false_iff.mpr hc)
        constructor
        · show (if strUpper c.symbol = "" ∨ c.allocation_usd ≤ 0 then _
            else _) = _
          rw [if_pos hcprop]
        · show (if strUpper c.symbol = "" ∨ c.allocation_usd ≤ 0 then _
            else _) = _
          rw [if_pos hcprop, List.takeWhile_cons_of_neg hc]
          rfl

/-- **C5** (amended). An empty asset list, and any asset with an empty
symbol or non-positive allocation, is rejected with a `BadRequest`
validation error (assuming the assets before the first invalid one price
without error); but the rejection is *not* before all pricing: exactly the
assets preceding the first invalid one are priced (and have their metrics
fetched) before the error is raised. No partial result is returned. -/
theorem loan_calculate_validation (classify : String → String)
    (metricsOf : String → Metrics) (assets : List ReqAsset) (months : ℤ)
    (hok : ∀ b ∈ assets, validAsset b = true →
      ∃ row, per_asset_breakdown b.allocation_usd
        (resolveTier classify (strUpper b.symbol) b.tier)
        (metricsOf (strUpper b.symbol)) (strUpper b.symbol) = .ok row) :
    (assets = [] → loan_calculate classify metricsOf assets months =
      .error (.badRequest "assets is required")) ∧
    (∀ a ∈ assets, validAsset a = false →
      loan_calculate classify metricsOf assets months =
        .error (.badRequest
          "asset symbol and positive allocation_usd required") ∧
      pricedAssets classify metricsOf assets =
        (assets.takeWhile validAsset).length) := by
  constructor
  · rintro rfl
    rfl
  · intro a ha hainv
    obtain ⟨he, hp⟩ := buildRows_invalid classify metricsOf assets hok a ha hainv
    refine ⟨?_, hp⟩
    unfold loan_calculate
    rw [if_neg (List.ne_nil_of_mem ha), he]

/-- First asset of the C5 example request: valid. -/
def reqBTC : ReqAsset :=
  { symbol := "BTC", allocation_usd := 100000, tier := Option.none }

/-- Second asset of the C5 example request: empty symbol, invalid. -/
def reqBad : ReqAsset :=
  { symbol := "", allocation_usd := 100000, tier := Option.none }

/-- **C5** counterexample to the claim as stated: with a valid first asset
and an invalid second one, the request is rejected — but only after the
first asset has been priced (`pricedAssets = 1 ≠ 0`), so the rejection is
not "before any pricing occurs". -/
theorem loan_calculate_validation_cex :
    loan_calculate (fun _ => "Tier 1") (fun _ => []) [reqBTC, reqBad] 6 =
      .error (.badRequest
        "asset symbol and positive allocation_usd required") ∧
    pricedAssets (fun _ => "Tier 1") (fun _ => []) [reqBTC, reqBad] = 1 ∧
    (1 : ℕ) ≠ 0 := by
  refine ⟨?_, ?_, by norm_num⟩
  · simp [loan_calculate, buildRows, per_asset_breakdown,
      interest_components_for_asset, tier_info, RISK_TIERS, List.lookup,
      resolveTier, tierTruthy, strUpper, reqBTC, reqBad]
  · simp [pricedAssets, per_asset_breakdown,
      interest_components_for_asset, tier_info, RISK_TIERS, List.lookup,
      resolveTier, tierTruthy, strUpper, reqBTC, reqBad]

/-- Witness for `loan_calculate_validation`: a valid BTC asset followed by
an empty-symbol asset; the request errors and exactly one asset was
priced. -/
theorem loan_calculate_validation_witness :
    validAsset reqBad = false ∧
    loan_calculate (fun _ => "Tier 1") (fun _ => []) [reqBTC, reqBad] 6 =
      .error (.badRequest
        "asset symbol and positive allocation_usd required") ∧
    pricedAssets (fun _ => "Tier 1") (fun _ => []) [reqBTC, reqBad] =
      ([reqBTC, reqBad].takeWhile validAsset).length :=
  have hinv : validAsset reqBad = false := by
    simp [validAsset, strUpper, reqBad]
  have hok : ∀ b ∈ [reqBTC, reqBad], validAsset b = true →
      ∃ row, per_asset_breakdown b.allocation_usd
        (resolveTier (fun _ => "Tier 1") (strUpper b.symbol) b.tier)
        ((fun _ => ([] : Metrics)) (strUpper b.symbol)) (strUpper b.symbol) =
        .ok row := by
    intro b hb hv
    rcases List.mem_cons.mp hb with rfl | hb
    · exact ⟨_, rfl⟩
    · rw [List.mem_singleton] at hb
      subst hb
      rw [hinv] at hv
      cases hv
  ⟨hinv,
    ((loan_calculate_validation (fun _ => "Tier 1") (fun _ => [])
      [reqBTC, reqBad] 6 hok).2 reqBad (by simp) hinv).1,
    ((loan_calculate_validation (fun _ => "Tier 1") (fun _ => [])
      [reqBTC, reqBad] 6 hok).2 reqBad (by simp) hinv).2⟩

theorem attach_amortization_emi (p : Profile) (hm : 0 < p.summary.months)
    (hpos : ∀ a ∈ p.assets, 0 < a.loan_usd) :
    ∃ p', attach_amortization p = some p' ∧
      p'.summary.monthly_emi =
        q2 ((p.assets.map (fun a => (amortization_schedule a.loan_usd
          a.interest_rate p.summary.months).payment)).sum) ∧
      p'.schedule.isSome = true := by
  unfold attach_amortization
  rw [if_neg (not_le.mpr hm)]
  dsimp only
  have hsum : ∃ out, sum_schedules (p.assets.map (fun a =>
      (a.symbol, (amortization_schedule a.loan_usd a.interest_rate
        p.summary.months).schedule))) = some out := by
    cases hassets : p.assets with
    | nil => exact ⟨[], rfl⟩
    | cons a rest =>
        have hlen : ∀ q ∈ (a :: rest).map (fun a =>
            (a.symbol, (amortization_schedule a.loan_usd a.interest_rate
              p.summary.months).schedule)), q.2.length =
                p.summary.months.toNat := by
          intro q hq
          obtain ⟨b, hb, rfl⟩ := List.mem_map.mp hq
          exact amortization_schedule_length b.loan_usd b.interest_rate
            p.summary.months hm (hpos b (by rw [hassets]; exact hb))
        obtain ⟨out, hout, -⟩ := sumFrom_some ((a :: rest).map (fun a =>
            (a.symbol, (amortization_schedule a.loan_usd a.interest_rate
              p.summary.months).schedule)))
          (amortization_schedule a.loan_usd a.interest_rate
            p.summary.months).schedule
          (amortization_schedule a.loan_usd a.interest_rate
            p.summary.months).schedule.length 0
          (fun q hq => by
            rw [hlen q hq,
              hlen (a.symbol, (amortization_schedule a.loan_usd
                a.interest_rate p.summary.months).schedule)
                (by simp)]
            omega)
        exact ⟨out, hout⟩
  obtain ⟨out, hout⟩ := hsum
  rw [hout]
  refine ⟨_, rfl, ?_, rfl⟩
  dsimp only
  rw [List.map_map]
  rfl

/-- Second asset of the C1 example request. -/
def reqDOGE : ReqAsset :=
  { symbol := "DOGE", allocation_usd := 100000, tier := Option.none }

/-- A classifier putting DOGE in Tier 3 and everything else in Tier 1. -/
def classifyTwo : String → String := fun s => if s = "DOGE" then "Tier 3" else "Tier 1"

/-- The breakdown `loan_calculate` computes for the BTC asset. -/
def btcRow : AssetBreakdown :=
  { symbol := "BTC", tier := "Tier 1", ltv := 18/25, base_rate := 633/10000,
    risk_premium := 1/20, volatility_premium := 1/100,
    interest_rate := 1233/10000, collateral_usd := 100000,
    loan_usd := 72000, pct_change_30d := Option.none }

/-- The breakdown `loan_calculate` computes for the DOGE asset. -/
def dogeRow : AssetBreakdown :=
  { symbol := "DOGE", tier := "Tier 3", ltv := 11/20, base_rate := 633/10000,
    risk_premium := 1/4, volatility_premium := 1/100,
    interest_rate := 3233/10000, collateral_usd := 100000,
    loan_usd := 55000, pct_change_30d := Option.none }

theorem buildRows_two :
    buildRows classifyTwo (fun _ => []) [reqBTC, reqDOGE] =
      .ok [btcRow, dogeRow] := by
  simp [buildRows, per_asset_breakdown, interest_components_for_asset,
    tier_info, RISK_TIERS, List.lookup, resolveTier, tierTruthy,
    volatility_premium_from_metrics, get_pct_change_30d, getVal, pyOr,
    PyVal.truthy, pyFloat, strUpper, BASE_RATE, reqBTC, reqDOGE,
    classifyTwo, btcRow, dogeRow]
  norm_num [q2, q4, rnd]

/-- **C1**: evaluation of the code at the failing input. `loan_calculate`
returns the profile straight from `portfolio_aggregate` without calling
`attach_amortization`: no schedule is attached and `summary.monthly_emi`
is the provisional aggregate-rate EMI (`22481.32`), while the
schedule-derived EMI that `attach_amortization` would install is
`round(Σ per-asset level payments, 2) = 22485.42`. -/
theorem loan_calculate_keeps_provisional_emi :
    ∃ p p', loan_calculate classifyTwo (fun _ => []) [reqBTC, reqDOGE] 6 =
        .ok p ∧
      p.schedule = Option.none ∧
      p.summary.monthly_emi = 562033/25 ∧
      attach_amortization p = some p' ∧
      p'.summary.monthly_emi = 1124271/50 ∧
      p.summary.monthly_emi ≠ p'.summary.monthly_emi := by
  have hp : loan_calculate classifyTwo (fun _ => []) [reqBTC, reqDOGE] 6 =
      .ok { assets := [btcRow, dogeRow],
            summary := { portfolio_aggregate [btcRow, dogeRow] 6 with
              months := 6 },
            schedule := Option.none } := by
    unfold loan_calculate
    rw [if_neg (by simp), buildRows_two]
  have hpos : ∀ a ∈ [btcRow, dogeRow], 0 < a.loan_usd := by
    intro a ha
    rcases List.mem_cons.mp ha with rfl | ha
    · norm_num [btcRow]
    · rw [List.mem_singleton] at ha
      subst ha
      norm_num [dogeRow]
  obtain ⟨p', hp', hemi', hsome⟩ := attach_amortization_emi
    { assets := [btcRow, dogeRow],
      summary := { portfolio_aggregate [btcRow, dogeRow] 6 with
        months := 6 },
      schedule := Option.none } (by norm_num) hpos
  have hprov : (portfolio_aggregate [btcRow, dogeRow] 6).monthly_emi =
      562033/25 := by
    norm_num [portfolio_aggregate, btcRow, dogeRow, q2, rnd]
  have hpay : q2 (([btcRow, dogeRow].map (fun a =>
      (amortization_schedule a.loan_usd a.interest_rate 6).payment)).sum) =
      1124271/50 := by
    norm_num [amortization_schedule, btcRow, dogeRow, q2, rnd]
  dsimp only at hemi'
  rw [hpay] at hemi'
  refine ⟨_, p', hp, rfl, hprov, hp', hemi', ?_⟩
  rw [hprov, hemi']
  norm_num
